import Mathlib

/-!
Shallow embedding of the telemetry core of `src/main.rs` (the MontY hardware
dashboard): the rolling-window sample store `SimpleChart`, the tick-driven
sampling coordinator `SystemChart::update`, the MSR power-sampler arithmetic,
and the `lm_sensors` package-temperature lookup.

Modelling conventions:
* `DateTime<Utc>` timestamps are modelled by their `timestamp_millis()` value
  as a mathematical integer (the eviction code only ever inspects that value).
* `Instant` values are modelled as nanosecond counts (`Nat`); `Duration`
  comparisons reduce to comparisons of those counts.
* Machine integers are `Nat`/`Int` with explicit `% 2^w` at the points where
  the source casts (`as u64`, `as u32`, `as i32`).
* The `iced` canvas `Cache` is modelled as an invalidation counter: the only
  observable interaction of the core with it is `cache.clear()` on push.
* The sampler's `f64` arithmetic (`(delta as f64) / 1.53 / 10.0`, truncated by
  `as u32`) is modelled by exact rational arithmetic.  This is numerically
  faithful: the exact values lie on the grid (1/153)·ℤ, so a non-integer exact
  value is at least 1/153 ≈ 6.5e-3 away from an integer while the accumulated
  IEEE-double rounding error for inputs below 2^32 is at most a few ulps
  (< 1e-6), and at the integer grid points (multiples of 153) the double
  computation was checked exhaustively to truncate to the exact integer.
-/

namespace Monty

/-- Semantics of casting an `i64` value to `u64` (`as u64` in the source):
the value modulo 2^64, as a natural number. -/
def u64Cast (x : Int) : Nat := (x % 2 ^ 64).toNat

/-- Semantics of casting a `u32` value to `i32` (`diff as i32` in the source). -/
def toI32 (n : Nat) : Int := ((n : Int) + 2 ^ 31) % 2 ^ 32 - 2 ^ 31

/-- `SimpleChart` (src/main.rs:284-290).  `data_points` is the `VecDeque`
listed front (newest push) first, each entry `(timestamp in ms, value)`;
`limit` is the retention duration in milliseconds; `cache` counts the
`Cache::clear` invalidations. -/
structure SimpleChart where
  cache : Nat
  data_points : List (Int × Int)
  limit : Nat
  unit : String
  max_value : Int
deriving DecidableEq

/-- `SimpleChart::new` (src/main.rs:293-302): collects the seed iterator,
retention fixed at 60 s = 60000 ms, fresh cache. -/
def SimpleChart.new (data : List (Int × Int)) (unit : String) (max_value : Int) :
    SimpleChart :=
  { cache := 0
    data_points := data
    limit := 60000
    unit := unit
    max_value := max_value }

/-- The eviction loop of `SimpleChart::push_data` (src/main.rs:307-316), acting
on the oldest-first view of the deque (the deque's back is the head here).
Each round inspects the back sample `(t, v)`:
`Duration::from_millis((cur_ms - t) as u64) > self.limit` pops it and loops,
otherwise the loop breaks; an empty deque also breaks. -/
def evictLoop (cur_ms : Int) (limit : Nat) : List (Int × Int) → List (Int × Int)
  | [] => []
  | (t, v) :: rest =>
    if u64Cast (cur_ms - t) > limit then evictLoop cur_ms limit rest
    else (t, v) :: rest

/-- `SimpleChart::push_data` (src/main.rs:304-318): `push_front` the new
sample, run the back-eviction loop, clear the render cache.  The loop runs on
the reversed (oldest-first) list and the result is reversed back. -/
def SimpleChart.push_data (c : SimpleChart) (time : Int) (value : Int) :
    SimpleChart :=
  { c with
    data_points := (evictLoop time c.limit ((time, value) :: c.data_points).reverse).reverse
    cache := c.cache + 1 }

/-- Iterated `push_data`, for reasoning about sequences of pushes. -/
def pushSeq (c : SimpleChart) : List (Int × Int) → SimpleChart
  | [] => c
  | (t, v) :: rest => pushSeq (c.push_data t v) rest

/-- A push list is monotone (non-decreasing timestamps) starting from `t0`. -/
def MonoFrom (t0 : Int) : List (Int × Int) → Prop
  | [] => True
  | (t, _) :: rest => t0 ≤ t ∧ MonoFrom t rest

/-- A timestamp representable as an `i64` (as `timestamp_millis()` is). -/
def TsOk (t : Int) : Prop := -2 ^ 63 ≤ t ∧ t < 2 ^ 63

/-- Newest-first ordering of the stored samples: every sample at a newer
(front-ward) position has a timestamp ≥ every sample at an older position. -/
def SortedNF (dp : List (Int × Int)) : Prop :=
  dp.Pairwise (fun a b => b.1 ≤ a.1)

/-- Invariant carried along a monotone push sequence whose last push happened
at `tcur`: 60 s retention, every retained sample is no newer than `tcur` and
within the window, timestamps are `i64`-representable, and an order invariant. -/
def GoodState (c : SimpleChart) (tcur : Int) : Prop :=
  c.limit = 60000 ∧
  (∀ s ∈ c.data_points, s.1 ≤ tcur ∧ TsOk s.1 ∧ tcur - s.1 ≤ (c.limit : Int)) ∧
  SortedNF c.data_points

/-- Invariant for pushes spaced exactly 1000 ms apart, last push at `tcur`:
additionally adjacent retained samples differ by at least 1000 ms. -/
def SpacedState (c : SimpleChart) (tcur : Int) : Prop :=
  c.limit = 60000 ∧
  (∃ v, c.data_points.head? = some (tcur, v)) ∧
  (∀ s ∈ c.data_points, s.1 ≤ tcur ∧ tcur - s.1 ≤ (c.limit : Int)) ∧
  c.data_points.Chain' (fun a b => b.1 + 1000 ≤ a.1)

/-- The environment data a coordinator tick reads: `Instant::now()` (ns),
`Utc::now().timestamp_millis()`, and the three snapshot readings, already
converted to integers as the source casts them (`as i32`, integer division
for the average frequency). -/
structure Snapshot where
  now_instant : Nat
  now_utc : Int
  cpu_usage : Int
  cpu_freq : Int
  pkg_temp : Int
deriving DecidableEq

/-- `SystemChart` (src/main.rs:99-109), restricted to the sampling state: the
`Instant` of the last sample (ns), the four rolling stores, and the published
power value read from the shared cell.  The `sys` and `sensors` handles and
the render-only `chart_height : f32` field are external/display concerns and
are not part of the sampled state. -/
structure SystemChart where
  last_sample_time : Nat
  usage : SimpleChart
  freq : SimpleChart
  temp : SimpleChart
  watts : SimpleChart
  current_wattage : Int
deriving DecidableEq

/-- `SystemChart::should_update` (src/main.rs:169-172):
`self.last_sample_time.elapsed() > Duration::from_millis(500)`, at the
tick's `Instant` `now` (elapsed = now − last_sample_time, in ns). -/
def SystemChart.should_update (c : SystemChart) (now : Nat) : Bool :=
  500000000 < now - c.last_sample_time

/-- `SystemChart::update` (src/main.rs:174-194): early-return unless
`should_update`; otherwise record the new `last_sample_time`, take one
timestamp `now`, and push all four readings (the watts value is the one read
from the shared `current_wattage` cell). -/
def SystemChart.update (c : SystemChart) (s : Snapshot) : SystemChart :=
  if ¬ c.should_update s.now_instant then c
  else
    { c with
      last_sample_time := s.now_instant
      usage := c.usage.push_data s.now_utc s.cpu_usage
      freq := c.freq.push_data s.now_utc s.cpu_freq
      temp := c.temp.push_data s.now_utc s.pkg_temp
      watts := c.watts.push_data s.now_utc c.current_wattage }

/-- The divisor used by the sampler thread (src/main.rs:136-140):
`time_diff` is the elapsed wall-clock milliseconds (`u128`); a zero elapsed
time is replaced by 1, and the division uses `time_diff as u32`. -/
def samplerDivisor (time_diff : Nat) : Nat :=
  (if time_diff = 0 then 1 else time_diff) % 2 ^ 32

/-- The value published by one sampler-thread iteration (src/main.rs:132-142),
for previous counter `pdraw`, current counter `new_pdraw` (both `u32`) and
elapsed milliseconds `time_diff`:
`(new_pdraw - pdraw)` in wrapping `u32` arithmetic, `as f64`, divided by
`1.53`, then by `10.0`, truncated by `as u32` (a saturating cast), divided by
`time_diff as u32`, and stored `as i32` into the shared cell.  The `f64`
arithmetic is modelled by exact rational arithmetic (see the header note). -/
def samplerPublish (pdraw new_pdraw time_diff : Nat) : Int :=
  let raw_delta : Nat := (2 ^ 32 + new_pdraw - pdraw) % 2 ^ 32
  let power1 : ℚ := (raw_delta : ℚ) / 1.53
  let power2 : ℚ := power1 / 10.0
  let p : Nat := min (Nat.floor power2) (2 ^ 32 - 1)
  toI32 (p / samplerDivisor time_diff)

/-- Rust `str::contains`: the pattern occurs as a contiguous substring. -/
def strContainsSub (s pat : String) : Bool :=
  decide (pat.toList <:+: s.toList)

/-- A sub-feature as seen by `get_package_temp`: `sf.value().ok()` composed
with `raw_value() as i32` is modelled as an optional integer reading. -/
structure SubFeature where
  value : Option Int
deriving DecidableEq

/-- A sensor feature: `name()` returns `Option<Result<_>>` (modelled
`Option (Option String)`), and `sub_feature_by_kind(TemperatureInput).ok()`
is modelled as the optional sub-feature for that kind. -/
structure Feature where
  name : Option (Option String)
  sub_feature_temperature_input : Option SubFeature
deriving DecidableEq

/-- A sensor chip: `name()` returns `Result<String>` (modelled `Option`),
plus its features in iteration order. -/
structure Chip where
  name : Option String
  features : List Feature
deriving DecidableEq

/-- The sensor view `get_package_temp` consumes: the chips in
`chip_iter(None)` order. -/
structure LMSensors where
  chips : List Chip
deriving DecidableEq

/-- The chip filter of src/main.rs:267:
`ch.name().is_ok_and(|n| n.contains("coretemp-isa-0000"))`. -/
def chipMatches (ch : Chip) : Bool :=
  ch.name.elim false (fun n => strContainsSub n "coretemp-isa-0000")

/-- The feature filter of src/main.rs:269-272:
`f.name().is_some_and(|n| n.is_ok_and(|n| n.contains("temp1")))`. -/
def featureMatches (f : Feature) : Bool :=
  f.name.elim false (fun r => r.elim false (fun n => strContainsSub n "temp1"))

/-- `SystemChart::get_package_temp` (src/main.rs:264-281): first matching
chip, then its first matching feature, then the `TemperatureInput`
sub-feature, then its value; any failure yields the `i32` default `0`. -/
def get_package_temp (sensors : LMSensors) : Int :=
  ((((sensors.chips.find? chipMatches).bind
      (fun ch => ch.features.find? featureMatches)).bind
      (fun ft => ft.sub_feature_temperature_input)).bind
      (fun sf => sf.value)).getD 0

/-- Concrete coordinator state for instantiations, mirroring the seeds of
`SystemChart::default` (src/main.rs:150-164) at time 0. -/
def sys0 : SystemChart :=
  { last_sample_time := 0
    usage := SimpleChart.new [(0, 25)] "%" 100
    freq := SimpleChart.new [(0, 2000)] " MHz" 5000
    temp := SimpleChart.new [(0, 40)] " °C" 100
    watts := SimpleChart.new [(0, 0)] " W" 80
    current_wattage := 12 }

/-- Concrete tick environment at instant `i` ns and UTC time `t` ms. -/
def snapAt (i : Nat) (t : Int) : Snapshot :=
  { now_instant := i
    now_utc := t
    cpu_usage := 30
    cpu_freq := 2500
    pkg_temp := 45 }

/-- A sensor view holding a single chip whose name does not contain
`coretemp-isa-0000`. -/
def otherChipSensors : LMSensors :=
  { chips := [{ name := some "nct6798-isa-0290", features := [] }] }

/-! ### Structure of the eviction loop -/

theorem evictLoop_append_last (cur : Int) (lim : Nat) (l : List (Int × Int))
    (x : Int × Int) (hx : ¬ u64Cast (cur - x.1) > lim) :
    ∃ l', evictLoop cur lim (l ++ [x]) = l' ++ [x] ∧ l' <:+ l := by
  induction l with
  | nil =>
    refine ⟨[], ?_, List.suffix_refl []⟩
    obtain ⟨t, v⟩ := x
    simp only [List.nil_append, evictLoop, if_neg hx]
  | cons a l ih =>
    obtain ⟨t, v⟩ := a
    by_cases h : u64Cast (cur - t) > lim
    · obtain ⟨l', h1, h2⟩ := ih
      refine ⟨l', ?_, h2.trans (List.suffix_cons _ _)⟩
      simp only [List.cons_append, evictLoop, if_pos h]
      exact h1
    · refine ⟨(t, v) :: l, ?_, List.suffix_refl _⟩
      simp only [List.cons_append, evictLoop, if_neg h]
      rfl

theorem evictLoop_head_le (cur : Int) (lim : Nat) {l rest : List (Int × Int)}
    {b : Int × Int} (h : evictLoop cur lim l = b :: rest) :
    u64Cast (cur - b.1) ≤ lim := by
  induction l with
  | nil => simp [evictLoop] at h
  | cons a l ih =>
    obtain ⟨t', v'⟩ := a
    by_cases hc : u64Cast (cur - t') > lim
    · exact ih (by rw [evictLoop, if_pos hc] at h; exact h)
    · rw [evictLoop, if_neg hc] at h
      injection h with h1 h2
      cases h1
      exact Nat.le_of_not_lt hc

/-- Every `push_data` keeps the just-pushed sample at the front and retains a
front-ward contiguous part of the previous samples (eviction only removes
from the old end). -/
theorem push_data_split (c : SimpleChart) (t v : Int) :
    ∃ pre suf, c.data_points = pre ++ suf ∧
      (c.push_data t v).data_points = (t, v) :: pre := by
  have hx : ¬ u64Cast (t - ((t, v) : Int × Int).1) > c.limit := by
    simp [u64Cast]
  obtain ⟨l', h1, h2⟩ := evictLoop_append_last t c.limit c.data_points.reverse (t, v) hx
  obtain ⟨u, hu⟩ := h2
  refine ⟨l'.reverse, u.reverse, ?_, ?_⟩
  · have h3 := congrArg List.reverse hu
    simpa [List.reverse_append] using h3.symm
  · show (evictLoop t c.limit ((t, v) :: c.data_points).reverse).reverse = (t, v) :: l'.reverse
    rw [List.reverse_cons, h1, List.reverse_append]
    simp

/-! ### Preservation lemmas for monotone pushes -/

theorem push_data_sorted (c : SimpleChart) (t v : Int)
    (hs : SortedNF c.data_points) (hall : ∀ s ∈ c.data_points, s.1 ≤ t) :
    SortedNF (c.push_data t v).data_points := by
  obtain ⟨pre, suf, hdp, hres⟩ := push_data_split c t v
  rw [SortedNF, hres]
  refine List.Pairwise.cons ?_ ?_
  · intro s hs'
    exact hall s (by rw [hdp]; exact List.mem_append_left _ hs')
  · have hsub : List.Sublist pre c.data_points := by
      rw [hdp]; exact List.sublist_append_left _ _
    exact hs.sublist hsub

theorem push_data_win (c : SimpleChart) (t v : Int)
    (hs : SortedNF c.data_points)
    (hall : ∀ s ∈ c.data_points, s.1 ≤ t)
    (hbound : ∀ s ∈ c.data_points, t - s.1 < 2 ^ 64) :
    ∀ s ∈ (c.push_data t v).data_points, t - s.1 ≤ (c.limit : Int) := by
  have hx : ¬ u64Cast (t - ((t, v) : Int × Int).1) > c.limit := by
    simp [u64Cast]
  obtain ⟨l', h1, h2⟩ := evictLoop_append_last t c.limit c.data_points.reverse (t, v) hx
  intro s hsmem
  have hsm : s ∈ evictLoop t c.limit (((t, v) :: c.data_points).reverse) := by
    simpa [SimpleChart.push_data, List.mem_reverse] using hsmem
  rw [List.reverse_cons, h1] at hsm
  rcases List.mem_append.mp hsm with hsl | hsx
  · obtain ⟨b, l'', rfl⟩ : ∃ b l'', l' = b :: l'' := by
      cases l' with
      | nil => cases hsl
      | cons b l'' => exact ⟨b, l'', rfl⟩
    have hb : u64Cast (t - b.1) ≤ c.limit := evictLoop_head_le t c.limit h1
    have hbmem : b ∈ c.data_points :=
      List.mem_reverse.mp (h2.subset (List.mem_cons_self b l''))
    have hble : b.1 ≤ t := hall b hbmem
    have hblt : t - b.1 < 2 ^ 64 := hbound b hbmem
    have hcast : u64Cast (t - b.1) = (t - b.1).toNat := by
      unfold u64Cast
      rw [Int.emod_eq_of_lt (by omega) (by omega)]
    have hbwin : t - b.1 ≤ (c.limit : Int) := by
      rw [hcast] at hb
      omega
    have hl'p : (b :: l'').Pairwise (fun a b2 : Int × Int => a.1 ≤ b2.1) := by
      have hrev : c.data_points.reverse.Pairwise (fun a b2 : Int × Int => a.1 ≤ b2.1) := by
        rw [List.pairwise_reverse]
        exact hs
      exact hrev.sublist h2.sublist
    have hbs : b.1 ≤ s.1 := by
      rcases List.mem_cons.mp hsl with rfl | hmem
      · exact le_refl _
      · exact (List.pairwise_cons.mp hl'p).1 s hmem
    omega
  · have : s = (t, v) := by simpa using hsx
    subst this
    simp

theorem push_step (c : SimpleChart) (t v : Int) (tcur : Int)
    (hg : GoodState c tcur) (hle : tcur ≤ t) (ht : TsOk t) :
    GoodState (c.push_data t v) t := by
  obtain ⟨hlim, hmem, hsort⟩ := hg
  have hall : ∀ s ∈ c.data_points, s.1 ≤ t :=
    fun s hs => le_trans (hmem s hs).1 hle
  have hbound : ∀ s ∈ c.data_points, t - s.1 < 2 ^ 64 := by
    intro s hs
    have h1 := (hmem s hs).2.1
    obtain ⟨h2, h3⟩ := h1
    obtain ⟨h4, h5⟩ := ht
    omega
  refine ⟨hlim, ?_, push_data_sorted c t v hsort hall⟩
  obtain ⟨pre, suf, hdp, hres⟩ := push_data_split c t v
  have hwin := push_data_win c t v hsort hall hbound
  intro s hsmem
  have hmem' : s = (t, v) ∨ s ∈ c.data_points := by
    rw [hres] at hsmem
    rcases List.mem_cons.mp hsmem with h | h
    · exact Or.inl h
    · exact Or.inr (by rw [hdp]; exact List.mem_append_left _ h)
  refine ⟨?_, ?_, hwin s hsmem⟩
  · rcases hmem' with rfl | h
    · exact le_refl _
    · exact hall s h
  · rcases hmem' with rfl | h
    · exact ht
    · exact (hmem s h).2.1

theorem new_good (seed : Int × Int) (u : String) (m : Int) (hs : TsOk seed.1) :
    GoodState (SimpleChart.new [seed] u m) seed.1 := by
  refine ⟨rfl, ?_, ?_⟩
  · intro s hsm
    have : s = seed := by simpa [SimpleChart.new] using hsm
    subst this
    refine ⟨le_refl _, hs, by simp⟩
  · simp [SortedNF, SimpleChart.new]

theorem pushSeq_good (pushes : List (Int × Int)) :
    ∀ (c : SimpleChart) (tcur : Int),
      GoodState c tcur → MonoFrom tcur pushes → (∀ p ∈ pushes, TsOk p.1) →
      ∃ t', tcur ≤ t' ∧ GoodState (pushSeq c pushes) t' := by
  induction pushes with
  | nil =>
    intro c tcur hg _ _
    exact ⟨tcur, le_refl _, hg⟩
  | cons p rest ih =>
    intro c tcur hg hm hts
    obtain ⟨t, v⟩ := p
    obtain ⟨h1, h2⟩ := hm
    have ht : TsOk t := hts (t, v) (List.mem_cons_self _ _)
    have hstep := push_step c t v tcur hg h1 ht
    obtain ⟨t', ht1, ht2⟩ :=
      ih (c.push_data t v) t hstep h2 (fun q hq => hts q (List.mem_cons_of_mem _ hq))
    exact ⟨t', le_trans h1 ht1, ht2⟩

/-! ### Claims C2, C4, C5, C10: the rolling-window store -/

/-- C2, counterexample: the window invariant fails for non-monotone
timestamps.  Seeding at 50 s and pushing 100 s, 60 s, 101 s, 111 s, 121 s, the
store retains the sample at 60 s while the front (most recently pushed)
sample is at 121 s, and 121 s − 60 s = 61 s exceeds the 60 s retention. -/
theorem C2_window_counterexample :
    (pushSeq (SimpleChart.new [(50000, 0)] "%" 100)
        [(100000, 0), (60000, 0), (101000, 0), (111000, 0), (121000, 0)]).data_points =
      [(121000, 0), (111000, 0), (101000, 0), (60000, 0), (100000, 0)] ∧
    (60000, 0) ∈
      (pushSeq (SimpleChart.new [(50000, 0)] "%" 100)
        [(100000, 0), (60000, 0), (101000, 0), (111000, 0), (121000, 0)]).data_points ∧
    ¬ ((121000 : Int) - 60000 ≤ 60000) := by
  refine ⟨by decide, by decide, by decide⟩

/-- C2, amended: for monotone (non-decreasing) push sequences with
`i64`-representable timestamps, after every push every retained sample `s`
satisfies `front.timestamp - s.timestamp ≤ 60 s`, where `front` is the most
recently pushed sample.  (Every prefix of a monotone sequence is again
monotone, so this covers the state after each intermediate push.) -/
theorem C2_window_monotone (seed : Int × Int) (u : String) (m : Int)
    (pushes : List (Int × Int)) (hseed : TsOk seed.1)
    (hp : ∀ p ∈ pushes, TsOk p.1) (hm : MonoFrom seed.1 pushes) :
    ∀ f ∈ (pushSeq (SimpleChart.new [seed] u m) pushes).data_points.head?,
      ∀ s ∈ (pushSeq (SimpleChart.new [seed] u m) pushes).data_points,
        f.1 - s.1 ≤ 60000 := by
  obtain ⟨t', ht', hg⟩ :=
    pushSeq_good pushes _ seed.1 (new_good seed u m hseed) hm hp
  obtain ⟨hlim, hmem, hsort⟩ := hg
  intro f hf s hsmem
  have hfm := List.mem_of_mem_head? hf
  have h1 := (hmem f hfm).1
  have h2 := (hmem s hsmem).2.2
  rw [hlim] at h2
  omega

/-- Witness for C2 (amended) on a concrete monotone sequence in which the
second push evicts the seed: the retained older sample (1000 ms, 2) is
within 60 s of the front (61000 ms, 3). -/
theorem C2_window_monotone_witness :
    (pushSeq (SimpleChart.new [(0, 1)] "%" 100)
        [(1000, 2), (61000, 3)]).data_points = [(61000, 3), (1000, 2)] ∧
    ((61000, 3) : Int × Int).1 - ((1000, 2) : Int × Int).1 ≤ 60000 :=
  ⟨by decide,
   C2_window_monotone (0, 1) "%" 100 [(1000, 2), (61000, 3)]
     (by norm_num [TsOk]) (by norm_num [TsOk]) (by norm_num [MonoFrom])
     (61000, 3) (by decide) (1000, 2) (by decide)⟩

/-- C4, counterexample: a `push_data` whose timestamp (40 s) is earlier than
a retained sample's timestamp (100 s) does evict that sample: the negative
millisecond difference wraps through `as u64` to a value far above the
retention. -/
theorem C4_negative_counterexample :
    (40000 : Int) < 100000 ∧
    ((SimpleChart.new [(100000, 5)] "%" 100).push_data 40000 7).data_points =
      [(40000, 7)] := by
  refine ⟨by decide, by decide⟩

/-- C4, amended: such a call does not crash (the wrapped value is a valid
`u64` and `push_data` is total), but rather than retaining the
newer-timestamped back sample it evicts it: whenever the back (oldest
position) sample `b` has `b.timestamp > t` (and the gap is below
`2^64 − retention` ms, as holds for any `i64` timestamps), the result
consists of the pushed sample followed by a front-ward part of the remaining
samples — `b` is gone. -/
theorem C4_negative_push_evicts (c : SimpleChart) (t v : Int)
    (l : List (Int × Int)) (bt bv : Int)
    (hdp : c.data_points = l ++ [(bt, bv)]) (ht : t < bt)
    (hb : bt - t < 2 ^ 64 - (c.limit : Int)) :
    ∃ pre suf, l = pre ++ suf ∧
      (c.push_data t v).data_points = (t, v) :: pre := by
  have hcond : u64Cast (t - bt) > c.limit := by
    unfold u64Cast
    omega
  have hrev : ((t, v) :: c.data_points).reverse =
      (bt, bv) :: (l.reverse ++ [(t, v)]) := by
    rw [List.reverse_cons, hdp, List.reverse_append]
    simp
  have hx : ¬ u64Cast (t - ((t, v) : Int × Int).1) > c.limit := by
    simp [u64Cast]
  obtain ⟨l', h1, h2⟩ := evictLoop_append_last t c.limit l.reverse (t, v) hx
  obtain ⟨u, hu⟩ := h2
  refine ⟨l'.reverse, u.reverse, ?_, ?_⟩
  · have h3 := congrArg List.reverse hu
    simpa [List.reverse_append] using h3.symm
  · show (evictLoop t c.limit ((t, v) :: c.data_points).reverse).reverse =
      (t, v) :: l'.reverse
    rw [hrev, evictLoop, if_pos hcond, h1, List.reverse_append]
    simp

/-- Witness for C4 (amended): pushing at 40 s onto a store whose only sample
is at 100 s evicts that sample. -/
theorem C4_negative_push_evicts_witness :
    ∃ pre suf, ([] : List (Int × Int)) = pre ++ suf ∧
      ((SimpleChart.new [(100000, 5)] "%" 100).push_data 40000 7).data_points =
        (40000, 7) :: pre :=
  C4_negative_push_evicts (SimpleChart.new [(100000, 5)] "%" 100) 40000 7 []
    100000 5 rfl (by decide) (by decide)

/-- C5, counterexample: with non-monotone timestamps the stored sequence is
not ordered: after seeding at 50 s and pushing 100 s then 60 s, the store is
`[(60 s, 3), (100 s, 2), (50 s, 1)]`, whose first adjacent pair has the
newer-position sample (60 s) strictly older than the next one (100 s). -/
theorem C5_order_counterexample :
    (pushSeq (SimpleChart.new [(50000, 1)] "%" 100)
        [(100000, 2), (60000, 3)]).data_points =
      [(60000, 3), (100000, 2), (50000, 1)] ∧
    ¬ List.Chain' (fun a b : Int × Int => b.1 ≤ a.1)
        (pushSeq (SimpleChart.new [(50000, 1)] "%" 100)
          [(100000, 2), (60000, 3)]).data_points := by
  have h : (pushSeq (SimpleChart.new [(50000, 1)] "%" 100)
      [(100000, 2), (60000, 3)]).data_points =
      [(60000, 3), (100000, 2), (50000, 1)] := by decide
  refine ⟨h, ?_⟩
  rw [h]
  intro hc
  exact absurd (List.chain'_cons.mp hc).1 (by decide)

/-- C5, amended: for monotone (non-decreasing) push sequences with
`i64`-representable timestamps, every pair of adjacent stored samples has the
newer-position timestamp ≥ the older-position one. -/
theorem C5_order_monotone (seed : Int × Int) (u : String) (m : Int)
    (pushes : List (Int × Int)) (hseed : TsOk seed.1)
    (hp : ∀ p ∈ pushes, TsOk p.1) (hm : MonoFrom seed.1 pushes) :
    List.Chain' (fun a b : Int × Int => b.1 ≤ a.1)
      (pushSeq (SimpleChart.new [seed] u m) pushes).data_points := by
  obtain ⟨t', ht', hg⟩ :=
    pushSeq_good pushes _ seed.1 (new_good seed u m hseed) hm hp
  exact hg.2.2.chain'

/-- Witness for C5 (amended) on a concrete monotone sequence. -/
theorem C5_order_monotone_witness :
    List.Chain' (fun a b : Int × Int => b.1 ≤ a.1)
      (pushSeq (SimpleChart.new [(0, 4)] " W" 80)
        [(500, 6), (500, 7), (70000, 8)]).data_points :=
  C5_order_monotone (0, 4) " W" 80 [(500, 6), (500, 7), (70000, 8)]
    (by norm_num [TsOk]) (by norm_num [TsOk]) (by norm_num [MonoFrom])

/-- C10: a freshly constructed store with a single seed pair contains exactly
that sample; and `push_data`'s eviction loop — total by structural recursion,
hence terminating — never removes the just-pushed sample, which stays at the
front, so the store is never empty after a push. -/
theorem C10_seed_nonempty :
    (∀ (seed : Int × Int) (u : String) (m : Int),
        (SimpleChart.new [seed] u m).data_points = [seed]) ∧
    (∀ (c : SimpleChart) (t v : Int),
        (c.push_data t v).data_points.head? = some (t, v) ∧
        (c.push_data t v).data_points ≠ []) := by
  constructor
  · intro seed u m
    rfl
  · intro c t v
    obtain ⟨pre, suf, hdp, hres⟩ := push_data_split c t v
    rw [hres]
    exact ⟨rfl, by simp⟩

/-! ### Claim C8: pushes spaced exactly one second apart -/

theorem pushSeq_append (c : SimpleChart) (l₁ l₂ : List (Int × Int)) :
    pushSeq c (l₁ ++ l₂) = pushSeq (pushSeq c l₁) l₂ := by
  induction l₁ generalizing c with
  | nil => rfl
  | cons p rest ih =>
    obtain ⟨t, v⟩ := p
    simp only [List.cons_append, pushSeq]
    exact ih _

theorem spaced_step (c : SimpleChart) (v : Int) (tcur : Int)
    (hg : SpacedState c tcur) :
    SpacedState (c.push_data (tcur + 1000) v) (tcur + 1000) := by
  obtain ⟨hlim, ⟨v0, hhead⟩, hmem, hchain⟩ := hg
  have hsort : SortedNF c.data_points := by
    haveI : IsTrans (Int × Int) (fun a b : Int × Int => b.1 + 1000 ≤ a.1) :=
      ⟨fun a b c2 h1 h2 => by omega⟩
    have hp : c.data_points.Pairwise (fun a b : Int × Int => b.1 + 1000 ≤ a.1) :=
      List.chain'_iff_pairwise.mp hchain
    exact hp.imp (fun h => by omega)
  have hall : ∀ s ∈ c.data_points, s.1 ≤ tcur + 1000 := by
    intro s hs
    have := (hmem s hs).1
    omega
  have hbound : ∀ s ∈ c.data_points, tcur + 1000 - s.1 < 2 ^ 64 := by
    intro s hs
    have h1 := (hmem s hs).2
    rw [hlim] at h1
    have h2 := (hmem s hs).1
    omega
  obtain ⟨pre, suf, hdp, hres⟩ := push_data_split c (tcur + 1000) v
  have hwin := push_data_win c (tcur + 1000) v hsort hall hbound
  refine ⟨hlim, ⟨v, by rw [hres]; rfl⟩, ?_, ?_⟩
  · intro s hsmem
    refine ⟨?_, hwin s hsmem⟩
    rw [hres] at hsmem
    rcases List.mem_cons.mp hsmem with rfl | h
    · exact le_refl _
    · exact hall s (by rw [hdp]; exact List.mem_append_left _ h)
  · rw [hres]
    have hpre : List.Chain' (fun a b : Int × Int => b.1 + 1000 ≤ a.1) pre := by
      rw [hdp] at hchain
      exact (List.chain'_append.mp hchain).1
    rcases hq : pre with _ | ⟨p, pre'⟩
    · exact List.chain'_singleton _
    · have hpre' : List.Chain' (fun a b : Int × Int => b.1 + 1000 ≤ a.1) (p :: pre') :=
        hq ▸ hpre
      refine List.chain'_cons.mpr ⟨?_, hpre'⟩
      have hph : p = (tcur, v0) := by
        rw [hdp, hq] at hhead
        simpa using hhead
      rw [hph]

theorem chain_gap_getLast :
    ∀ (l : List (Int × Int)),
      List.Chain' (fun a b : Int × Int => b.1 + 1000 ≤ a.1) l →
      ∀ x ∈ l.head?, ∀ y ∈ l.getLast?,
        y.1 + 1000 * ((l.length : Int) - 1) ≤ x.1 := by
  intro l
  induction l with
  | nil =>
    intro _ x hx
    simp at hx
  | cons a l ih =>
    intro h x hx y hy
    have hax : a = x := by simpa using hx
    subst hax
    cases l with
    | nil =>
      have hya : a = y := by simpa using hy
      subst hya
      simp
    | cons b l' =>
      obtain ⟨hab, hchain⟩ := List.chain'_cons.mp h
      have hy' : y ∈ (b :: l').getLast? := by
        simpa [List.getLast?_cons_cons] using hy
      have hrec := ih hchain b (by simp) y hy'
      simp only [List.length_cons] at hrec ⊢
      push_cast at hrec ⊢
      omega

theorem spaced_length_le (c : SimpleChart) (tcur : Int)
    (hg : SpacedState c tcur) : c.data_points.length ≤ 61 := by
  obtain ⟨hlim, ⟨v0, hhead⟩, hmem, hchain⟩ := hg
  have hne : c.data_points ≠ [] := by
    intro h
    rw [h] at hhead
    simp at hhead
  have hy : c.data_points.getLast? = some (c.data_points.getLast hne) :=
    List.getLast?_eq_getLast_of_ne_nil hne
  have hgap := chain_gap_getLast c.data_points hchain (tcur, v0)
    (by rw [hhead]; rfl) (c.data_points.getLast hne) (by rw [hy]; rfl)
  have hwin := (hmem (c.data_points.getLast hne) (List.getLast_mem hne)).2
  rw [hlim] at hwin
  simp only at hgap
  omega

theorem spaced_new (t0 v0 : Int) (u : String) (m : Int) :
    SpacedState (SimpleChart.new [(t0, v0)] u m) t0 := by
  refine ⟨rfl, ⟨v0, rfl⟩, ?_, ?_⟩
  · intro s hs
    have : s = (t0, v0) := by simpa [SimpleChart.new] using hs
    subst this
    simp
  · exact List.chain'_singleton _

theorem spaced_after (N : ℕ) (t0 v0 : Int) (u : String) (m : Int)
    (vals : ℕ → Int) :
    SpacedState
      (pushSeq (SimpleChart.new [(t0, v0)] u m)
        ((List.range N).map (fun k : Nat => (t0 + 1000 * ((k : Int) + 1), vals k))))
      (t0 + 1000 * N) := by
  induction N with
  | zero => simpa [pushSeq] using spaced_new t0 v0 u m
  | succ n ih =>
    rw [List.range_succ, List.map_append, pushSeq_append]
    simp only [List.map_cons, List.map_nil, pushSeq]
    have e1 : t0 + 1000 * ((n : Int) + 1) = t0 + 1000 * (n : Int) + 1000 := by
      ring
    have e2 : t0 + 1000 * ((n + 1 : ℕ) : Int) = t0 + 1000 * (n : Int) + 1000 := by
      push_cast
      ring
    rw [e1, e2]
    exact spaced_step _ (vals n) (t0 + 1000 * (n : Int)) ih

/-- C8: pushing `N` samples spaced exactly 1 s (1000 ms) apart, in increasing
order, into a freshly seeded store with the 60 s retention leaves at most 61
samples, for every `N` — and since every such sequence is a prefix of a
longer one of the same shape, the bound holds after every push. -/
theorem C8_spaced_retention (N : ℕ) (t0 v0 : Int) (u : String) (m : Int)
    (vals : ℕ → Int) :
    (pushSeq (SimpleChart.new [(t0, v0)] u m)
      ((List.range N).map (fun k : Nat => (t0 + 1000 * ((k : Int) + 1), vals k)))).data_points.length ≤ 61 :=
  spaced_length_le _ _ (spaced_after N t0 v0 u m vals)

/-! ### Claims C3, C6: the debounced sampling coordinator -/

theorem update_of_le (c : SystemChart) (s : Snapshot)
    (h : s.now_instant - c.last_sample_time ≤ 500000000) : c.update s = c := by
  unfold SystemChart.update
  rw [if_pos]
  simp only [SystemChart.should_update, decide_eq_true_eq]
  omega

theorem update_of_gt (c : SystemChart) (s : Snapshot)
    (h : 500000000 < s.now_instant - c.last_sample_time) :
    c.update s =
      { c with
        last_sample_time := s.now_instant
        usage := c.usage.push_data s.now_utc s.cpu_usage
        freq := c.freq.push_data s.now_utc s.cpu_freq
        temp := c.temp.push_data s.now_utc s.pkg_temp
        watts := c.watts.push_data s.now_utc c.current_wattage } := by
  unfold SystemChart.update
  rw [if_neg]
  simp only [SystemChart.should_update, decide_eq_true_eq]
  omega

/-- C3, counterexample: at an age of exactly 500 ms the coordinator does not
sample — `should_update` compares with strict `>` — so the tick is a no-op,
contradicting "including exactly 500 ms it performs a sample"; one
nanosecond later it does sample. -/
theorem C3_debounce_counterexample :
    (snapAt 500000000 1000).now_instant - sys0.last_sample_time = 500000000 ∧
    sys0.update (snapAt 500000000 1000) = sys0 ∧
    sys0.update (snapAt 500000001 1000) ≠ sys0 := by
  refine ⟨rfl, by decide, by decide⟩

/-- C3, amended: the coordinator samples exactly when the age of the most
recent sample strictly exceeds 500 ms: a tick with age > 500 ms pushes into
the stores (observable as the usage store's cache-invalidation counter
increasing by one), and a tick with age ≤ 500 ms — including exactly
500 ms — leaves the state unchanged. -/
theorem C3_debounce_strict (c : SystemChart) (s : Snapshot) :
    ((c.update s).usage.cache = c.usage.cache + 1 ↔
      500000000 < s.now_instant - c.last_sample_time) ∧
    (s.now_instant - c.last_sample_time ≤ 500000000 → c.update s = c) := by
  refine ⟨⟨?_, ?_⟩, fun h => update_of_le c s h⟩
  · intro h
    by_contra hn
    rw [update_of_le c s (by omega)] at h
    omega
  · intro h
    rw [update_of_gt c s h]
    rfl

/-- Witness for C3 (amended): a tick at age exactly 500 ms is a no-op on the
concrete state `sys0`. -/
theorem C3_debounce_strict_witness :
    sys0.update (snapAt 500000000 2000) = sys0 :=
  (C3_debounce_strict sys0 (snapAt 500000000 2000)).2 (by decide)

/-- C6: a tick arriving while Idle (age strictly below the 500 ms debounce
threshold) is a complete no-op — the returned state equals the input state,
so all four stores, their caches and `last_sample_time` are unchanged — and
consequently a second invocation within 500 ms of a sampling invocation
changes nothing, so the pair performs exactly one push per store. -/
theorem C6_idle_noop :
    (∀ (c : SystemChart) (s : Snapshot),
        s.now_instant - c.last_sample_time < 500000000 → c.update s = c) ∧
    (∀ (c : SystemChart) (s₁ s₂ : Snapshot),
        500000000 < s₁.now_instant - c.last_sample_time →
        s₁.now_instant ≤ s₂.now_instant →
        s₂.now_instant - s₁.now_instant < 500000000 →
        (c.update s₁).update s₂ = c.update s₁ ∧
        (c.update s₁).usage = c.usage.push_data s₁.now_utc s₁.cpu_usage ∧
        (c.update s₁).freq = c.freq.push_data s₁.now_utc s₁.cpu_freq ∧
        (c.update s₁).temp = c.temp.push_data s₁.now_utc s₁.pkg_temp ∧
        (c.update s₁).watts = c.watts.push_data s₁.now_utc c.current_wattage) := by
  constructor
  · intro c s h
    exact update_of_le c s (by omega)
  · intro c s₁ s₂ h1 h2 h3
    have hu := update_of_gt c s₁ h1
    have hlast : (c.update s₁).last_sample_time = s₁.now_instant := by rw [hu]
    refine ⟨?_, by rw [hu], by rw [hu], by rw [hu], by rw [hu]⟩
    apply update_of_le
    rw [hlast]
    omega

/-- Witness for C6 at concrete states: an Idle tick is a no-op, and a
sampling tick followed within 500 ms by a second tick yields exactly one
push per store. -/
theorem C6_idle_noop_witness :
    sys0.update (snapAt 400000000 1000) = sys0 ∧
    ((sys0.update (snapAt 600000000 1000)).update (snapAt 900000000 2000) =
        sys0.update (snapAt 600000000 1000) ∧
      (sys0.update (snapAt 600000000 1000)).usage =
        sys0.usage.push_data 1000 30 ∧
      (sys0.update (snapAt 600000000 1000)).freq =
        sys0.freq.push_data 1000 2500 ∧
      (sys0.update (snapAt 600000000 1000)).temp =
        sys0.temp.push_data 1000 45 ∧
      (sys0.update (snapAt 600000000 1000)).watts =
        sys0.watts.push_data 1000 12) :=
  ⟨C6_idle_noop.1 sys0 (snapAt 400000000 1000) (by decide),
   C6_idle_noop.2 sys0 (snapAt 600000000 1000) (snapAt 900000000 2000)
     (by decide) (by decide) (by decide)⟩

/-! ### Claim C7: the zero-elapsed-time guard of the power sampler -/

/-- C7: when the measured elapsed wall-clock time is 0 ms, the divisor
actually used in the power computation is 1, not 0 — the guard substitutes 1
before the `as u32` cast — so the division is by a nonzero integer and the
iteration publishes the same defined value as an elapsed time of 1 ms. -/
theorem C7_zero_divisor_guard :
    samplerDivisor 0 = 1 ∧ samplerDivisor 0 ≠ 0 ∧
    ∀ pdraw new_pdraw : Nat,
      samplerPublish pdraw new_pdraw 0 = samplerPublish pdraw new_pdraw 1 := by
  refine ⟨rfl, by decide, fun pdraw new_pdraw => rfl⟩

/-! ### Claim C9: missing-sensor default temperature -/

/-- C9: against a sensor source in which no chip name contains
`coretemp-isa-0000` — or in which every candidate chip lacks a matching
`temp1` feature, or the feature lacks the temperature-input sub-feature, or
the sub-feature carries no readable value — `get_package_temp` returns the
default 0 rather than an error. -/
theorem C9_missing_sensor_default (sensors : LMSensors)
    (h : (∀ ch ∈ sensors.chips, chipMatches ch = false) ∨
         (∀ ch ∈ sensors.chips, ∀ f ∈ ch.features, featureMatches f = false) ∨
         (∀ ch ∈ sensors.chips, ∀ f ∈ ch.features,
            f.sub_feature_temperature_input = none) ∨
         (∀ ch ∈ sensors.chips, ∀ f ∈ ch.features,
            ∀ sf ∈ f.sub_feature_temperature_input, sf.value = none)) :
    get_package_temp sensors = 0 := by
  unfold get_package_temp
  rcases h with h | h | h | h
  · have hfind : sensors.chips.find? chipMatches = none :=
      List.find?_eq_none.mpr (fun ch hch => by rw [h ch hch]; simp)
    simp [hfind]
  · cases hfind : sensors.chips.find? chipMatches with
    | none => simp [hfind]
    | some ch =>
      have hch : ch ∈ sensors.chips := List.mem_of_find?_eq_some hfind
      have hf : ch.features.find? featureMatches = none :=
        List.find?_eq_none.mpr (fun f hf => by rw [h ch hch f hf]; simp)
      simp [hfind, hf]
  · cases hfind : sensors.chips.find? chipMatches with
    | none => simp [hfind]
    | some ch =>
      have hch : ch ∈ sensors.chips := List.mem_of_find?_eq_some hfind
      cases hf : ch.features.find? featureMatches with
      | none => simp [hfind, hf]
      | some ft =>
        have hft : ft ∈ ch.features := List.mem_of_find?_eq_some hf
        simp [hfind, hf, h ch hch ft hft]
  · cases hfind : sensors.chips.find? chipMatches with
    | none => simp [hfind]
    | some ch =>
      have hch : ch ∈ sensors.chips := List.mem_of_find?_eq_some hfind
      cases hf : ch.features.find? featureMatches with
      | none => simp [hfind, hf]
      | some ft =>
        have hft : ft ∈ ch.features := List.mem_of_find?_eq_some hf
        cases hsub : ft.sub_feature_temperature_input with
        | none => simp [hfind, hf, hsub]
        | some sf =>
          have hval : sf.value = none :=
            h ch hch ft hft sf (by rw [hsub]; rfl)
          simp [hfind, hf, hsub, hval]

/-- Witness for C9: a sensor view whose only chip is a Super-I/O chip (name
not containing `coretemp-isa-0000`) yields temperature 0. -/
theorem C9_missing_sensor_default_witness :
    get_package_temp otherChipSensors = 0 :=
  C9_missing_sensor_default otherChipSensors (Or.inl (by decide))

/-! ### Claim C1: the published power value -/

/-- C1: for every pair of consecutive counter readings `prev ≤ cur` (no
wraparound, both `u32`) and every elapsed time with 1 ≤ elapsed_ms < 2^32,
the value the sampler publishes equals
`floor(((cur − prev) / 1.53 / 10.0) / elapsed_ms)`; in particular
`prev = 1000`, `cur = 2530`, `elapsed_ms = 100` publishes 1 watt.
(The code truncates `(cur − prev)/1.53/10.0` to an integer by `as u32`
before the integer division by `elapsed_ms`; this coincides with the single
outer floor because `⌊⌊x⌋ / n⌋ = ⌊x / n⌋` for `x ≥ 0`, `n ≥ 1`.) -/
theorem C1_sampler_power (prev cur elapsed : Nat)
    (hpc : prev ≤ cur) (hc : cur < 2 ^ 32)
    (he1 : 1 ≤ elapsed) (he2 : elapsed < 2 ^ 32) :
    (samplerPublish prev cur elapsed =
      Int.floor ((((cur - prev : Nat) : ℚ) / 1.53 / 10.0) / (elapsed : ℚ))) ∧
    samplerPublish 1000 2530 100 = 1 := by
  constructor
  · have hd : (2 ^ 32 + cur - prev) % 2 ^ 32 = cur - prev := by omega
    have hdiv : samplerDivisor elapsed = elapsed := by
      unfold samplerDivisor
      rw [if_neg (by omega)]
      exact Nat.mod_eq_of_lt he2
    unfold samplerPublish
    simp only [hd, hdiv]
    set d : Nat := cur - prev with hdd
    have hdlt : d < 2 ^ 32 := by omega
    set q : ℚ := ((d : ℚ) / 1.53) / 10.0 with hq
    have hq0 : 0 ≤ q := by
      rw [hq]
      positivity
    have hq31 : q < 2 ^ 31 := by
      rw [hq, div_div, div_lt_iff₀ (by norm_num)]
      have hdq : (d : ℚ) < 2 ^ 32 := by exact_mod_cast hdlt
      nlinarith
    have hmin : min (Nat.floor q) (2 ^ 32 - 1) = Nat.floor q := by
      apply min_eq_left
      have h1 : Nat.floor q < 2 ^ 31 := by
        rw [Nat.floor_lt hq0]
        exact_mod_cast hq31
      omega
    rw [hmin, ← Nat.floor_div_nat q elapsed]
    have hqe0 : 0 ≤ q / (elapsed : ℚ) := by positivity
    have hfl : ((Nat.floor (q / (elapsed : ℚ)) : Int)) =
        Int.floor (q / (elapsed : ℚ)) := by
      rw [← Int.floor_toNat, Int.toNat_of_nonneg (Int.floor_nonneg.mpr hqe0)]
    have hfl31 : Nat.floor (q / (elapsed : ℚ)) < 2 ^ 31 := by
      rw [Nat.floor_lt hqe0]
      calc q / (elapsed : ℚ) ≤ q / 1 := by
            apply div_le_div_of_nonneg_left hq0 (by norm_num) ?_
            exact_mod_cast he1
        _ = q := by norm_num
        _ < 2 ^ 31 := hq31
    unfold toI32
    rw [Int.emod_eq_of_lt (by positivity) (by
      have h2 : ((Nat.floor (q / (elapsed : ℚ)) : Int)) < 2 ^ 31 := by
        exact_mod_cast hfl31
      omega)]
    rw [hfl]
    ring
  · have h1 : ((1530 : ℕ) : ℚ) / 1.53 / 10.0 = 100 := by norm_num
    unfold samplerPublish samplerDivisor toI32
    norm_num [h1]

/-- Witness for C1 at the spec's own example. -/
theorem C1_sampler_power_witness :
    (samplerPublish 1000 2530 100 =
      Int.floor ((((2530 - 1000 : Nat) : ℚ) / 1.53 / 10.0) / (100 : ℚ))) ∧
    samplerPublish 1000 2530 100 = 1 :=
  C1_sampler_power 1000 2530 100 (by norm_num) (by norm_num)
    (by norm_num) (by norm_num)

end Monty
